import Mathlib

/-!
Verification of the blackjack player-vs-dealer hand detector
(`src/main.py`) against its specification.

The core logic embedded here, faithful to the Python source:
  * `classNames` — the 52 card identifier strings (lines 16-28);
  * `calculate_blackjack_value` — the hand evaluator (lines 33-53),
    returning `Option Int` where `none` models a raised exception
    (Python `int()` failing on a rank string);
  * the zone classification of a detection by the top edge of its
    bounding box (lines 105-108);
  * per-zone deduplication via `list(set(...))` (lines 121-122);
  * the per-frame game-state update: default hand values, the
    `not game_over` evaluation guard, and the End / Reset key
    handlers (lines 56-57, 69-70, 125-136, 156-174).
-/

/-- The 52 card class names, exactly as listed in `src/main.py` lines 16-28. -/
def classNames : List String :=
  ["10C", "10D", "10H", "10S",
   "2C", "2D", "2H", "2S",
   "3C", "3D", "3H", "3S",
   "4C", "4D", "4H", "4S",
   "5C", "5D", "5H", "5S",
   "6C", "6D", "6H", "6S",
   "7C", "7D", "7H", "7S",
   "8C", "8D", "8H", "8S",
   "9C", "9D", "9H", "9S",
   "AC", "AD", "AH", "AS",
   "JC", "JD", "JH", "JS",
   "KC", "KD", "KH", "KS",
   "QC", "QD", "QH", "QS"]

/-- Models Python `int(s)` applied to a rank string: `some` of the numeric
value when `s` is a nonempty run of ASCII digits, `none` (an exception)
otherwise.  Python's `int()` additionally accepts surrounding whitespace, a
sign and digit-group underscores; no rank string arising from a card
identifier in this development uses those forms, and no theorem below
depends on them. -/
def pyInt (s : String) : Option Int :=
  if s.data ≠ [] ∧ s.data.all Char.isDigit then
    some (Int.ofNat (s.data.foldl (fun acc c => acc * 10 + (c.toNat - 48)) 0))
    else none

/-- One iteration of the `for card in hand` loop of
`calculate_blackjack_value` (lines 38-46): the contribution of a single
card as `(points added to value, aces added to the ace counter)`.
`rank = card[:-1]` is `card.dropRight 1`; K/Q/J score 10, A scores a
provisional 11 and bumps the ace counter, anything else goes through
`int(rank)`, whose failure is `none`. -/
def rankPoints (card : String) : Option (Int × Nat) :=
  if card.dropRight 1 = "K" ∨ card.dropRight 1 = "Q" ∨ card.dropRight 1 = "J" then
    some (10, 0)
  else if card.dropRight 1 = "A" then some (11, 1)
  else
    match pyInt (card.dropRight 1) with
    | some n => some (n, 0)
    | none => none

/-- The accumulation loop of `calculate_blackjack_value` (lines 34-46):
starting from the running `value` and `aces`, fold the remaining cards,
propagating a card-parsing exception as `none`. -/
def handCount : List String → Int → Nat → Option (Int × Nat)
  | [], value, aces => some (value, aces)
  | card :: rest, value, aces =>
    match rankPoints card with
    | some pq => handCount rest (value + pq.1) (aces + pq.2)
    | none => none

/-- The ace-adjustment `while value > 21 and aces > 0` loop of
`calculate_blackjack_value` (lines 49-51), as structural recursion on the
ace counter: each pass subtracts 10 and consumes one ace. -/
def adjustAces : Int → Nat → Int
  | value, 0 => value
  | value, a + 1 => if 21 < value then adjustAces (value - 10) a else value

/-- `calculate_blackjack_value` (lines 33-53): sum the cards' base points
counting each ace as 11, then run the ace-adjustment loop.  `none` models
the `ValueError` raised by `int()` on an unparseable rank. -/
def calculate_blackjack_value (hand : List String) : Option Int :=
  match handCount hand 0 0 with
  | some va => some (adjustAces va.1 va.2)
  | none => none

/-- The ace-adjustment loop written with explicit fuel and the source's
literal guard `value > 21 and aces > 0`: `none` means the fuel ran out
before the guard turned false.  Used to state termination of the loop. -/
def adjustAcesFuel : Nat → Int → Nat → Option Int
  | 0, value, aces => if 21 < value ∧ 0 < aces then none else some value
  | f + 1, value, aces =>
    if 21 < value ∧ 0 < aces then adjustAcesFuel f (value - 10) (aces - 1)
    else some value

/-- Number of executions of the ace-adjustment loop body for a given
initial total and ace counter. -/
def aceIterations : Int → Nat → Nat
  | _, 0 => 0
  | value, a + 1 => if 21 < value then aceIterations (value - 10) a + 1 else 0

/-- Spec-side rank-to-base-points mapping (§4.2 of the spec): numeric
ranks at face value, 10 for the face cards, a provisional 11 for an ace.
Stated against this, `calculate_blackjack_value` is the base sum followed
by the downgrade loop. -/
def specBase (card : String) : Int :=
  if card.dropRight 1 = "K" ∨ card.dropRight 1 = "Q" ∨ card.dropRight 1 = "J" then 10
  else if card.dropRight 1 = "A" then 11
  else (pyInt (card.dropRight 1)).getD 0

/-- Whether a card identifier is an ace: its rank part (all but the last
character) is `A`. -/
def isAce (card : String) : Bool := card.dropRight 1 == "A"

/-- Spec-side downgrade loop, written from the spec's words: while the
total exceeds 21 and undowngraded aces remain, reinterpret one ace from
11 to 1 (subtract 10). -/
def specDowngrade : Int → Nat → Int
  | total, 0 => total
  | total, k + 1 => if 21 < total then specDowngrade (total - 10) k else total

-- Helper lemmas ---------------------------------------------------------

/-- The code's ace-adjustment loop and the spec's downgrade loop agree. -/
theorem adjustAces_eq_specDowngrade (value : Int) (aces : Nat) :
    adjustAces value aces = specDowngrade value aces := by
  induction aces generalizing value with
  | zero => rfl
  | succ a ih =>
    simp only [adjustAces, specDowngrade]
    split
    · exact ih (value - 10)
    · rfl

/-- A single card's loop contribution, when it does not raise, is its
spec-side base value together with one ace tick exactly when the card is
an ace. -/
theorem rankPoints_eq (card : String) (p : Int) (q : Nat)
    (h : rankPoints card = some (p, q)) :
    p = specBase card ∧ q = (if isAce card then 1 else 0) := by
  unfold rankPoints at h
  unfold specBase isAce
  split at h
  · rename_i hface
    injection h with h
    rw [Prod.mk.injEq] at h
    obtain ⟨rfl, rfl⟩ := h
    have hA : card.dropRight 1 ≠ "A" := by
      rcases hface with h1 | h1 | h1 <;> rw [h1] <;> decide
    rw [if_pos hface]
    simp [beq_iff_eq, hA]
  · rename_i hface
    split at h
    · rename_i hA
      injection h with h
      rw [Prod.mk.injEq] at h
      obtain ⟨rfl, rfl⟩ := h
      rw [if_neg hface, if_pos hA]
      simp [beq_iff_eq, hA]
    · rename_i hA
      cases hpy : pyInt (card.dropRight 1) with
      | none => rw [hpy] at h; simp at h
      | some n =>
        rw [hpy] at h
        injection h with h
        rw [Prod.mk.injEq] at h
        obtain ⟨rfl, rfl⟩ := h
        rw [if_neg hface, if_neg hA]
        simp [beq_iff_eq, hA]

/-- The accumulation loop, when it does not raise, returns the running
value plus the sum of spec-side base points, and the running ace counter
plus the number of aces. -/
theorem handCount_eq (hand : List String) :
    ∀ (value : Int) (aces : Nat) (v : Int) (a : Nat),
      handCount hand value aces = some (v, a) →
      v = value + (hand.map specBase).sum ∧ a = aces + hand.countP isAce := by
  induction hand with
  | nil =>
    intro value aces v a h
    simp only [handCount] at h
    cases h
    simp
  | cons card rest ih =>
    intro value aces v a h
    simp only [handCount] at h
    cases hrp : rankPoints card with
    | none => rw [hrp] at h; cases h
    | some pq =>
      rw [hrp] at h
      obtain ⟨hp, hq⟩ := rankPoints_eq card pq.1 pq.2 (by rw [hrp])
      obtain ⟨hv, ha⟩ := ih (value + pq.1) (aces + pq.2) v a h
      constructor
      · rw [hv, hp]
        simp [List.sum_cons]
        ring
      · rw [ha, hq, List.countP_cons]
        cases hAce : isAce card
        all_goals simp [hAce]
        all_goals omega

/-- If every card of the hand parses, the accumulation loop does not
raise. -/
theorem handCount_isSome (hand : List String)
    (hvalid : ∀ c ∈ hand, (rankPoints c).isSome) :
    ∀ (value : Int) (aces : Nat), (handCount hand value aces).isSome := by
  induction hand with
  | nil => intro value aces; simp [handCount]
  | cons card rest ih =>
    intro value aces
    simp only [handCount]
    cases hrp : rankPoints card with
    | none =>
      have := hvalid card (by simp)
      rw [hrp] at this
      cases this
    | some pq =>
      exact ih (fun c hc => hvalid c (by simp [hc])) (value + pq.1) (aces + pq.2)

/-- Every one of the 52 card identifiers parses, to its spec-side base
value with the correct ace tick. -/
theorem classNames_rankPoints :
    ∀ c ∈ classNames,
      rankPoints c = some (specBase c, if isAce c then 1 else 0) := by
  decide

-- Zone classifier and per-frame game-state update ------------------------

/-- The two spatial zones of the frame. -/
inductive Zone
  | dealer
  | player
deriving DecidableEq

/-- The zone assignment of `src/main.py` lines 105-108: a detection whose
top edge `y1` satisfies `y1 < dealer_zone[3]` (that is, `y1 < height // 2`,
floor division) goes to the dealer, one with `y1 >= player_zone[1]` (that
is, `y1 >= height // 2`) goes to the player; the `if`/`elif` has no `else`,
so a detection matching neither test would be dropped (`none`). -/
def classify (topEdgeY frameHeight : Int) : Option Zone :=
  if topEdgeY < Int.fdiv frameHeight 2 then some Zone.dealer
  else if Int.fdiv frameHeight 2 ≤ topEdgeY then some Zone.player
  else none

/-- The dealer's raw hand for a frame: the detection loop of lines 89-108
appends `card` to `dealer_hand` whenever `y1 < height // 2`.  A detection
is modelled as the pair `(card, y1)`. -/
def dealerRaw (dets : List (String × Int)) (height : Int) : List String :=
  (dets.filter fun d => d.2 < Int.fdiv height 2).map Prod.fst

/-- The player's raw hand for a frame: `card` is appended to `player_hand`
whenever `y1 >= height // 2` (lines 107-108). -/
def playerRaw (dets : List (String × Int)) (height : Int) : List String :=
  (dets.filter fun d => Int.fdiv height 2 ≤ d.2).map Prod.fst

/-- `dealer_hand = list(set(dealer_hand))` (line 121): duplicates collapse. -/
def dealerHand (dets : List (String × Int)) (height : Int) : List String :=
  (dealerRaw dets height).dedup

/-- `player_hand = list(set(player_hand))` (line 122). -/
def playerHand (dets : List (String × Int)) (height : Int) : List String :=
  (playerRaw dets height).dedup

/-- The game state of `src/main.py` lines 56-57: the `game_over` flag and
the `winner_message` string, initially `false` and `""`. -/
structure GameState where
  game_over : Bool
  winner_message : String
deriving DecidableEq

/-- The keys the main loop reacts to: `'S'` ends the round, `'D'` resets,
anything else (including `'q'`, which only exits the loop) leaves the
state alone. -/
inductive Key
  | endRound
  | reset
  | other
deriving DecidableEq

/-- The winner decision of the End key handler (lines 158-170), an
`if`/`elif` chain evaluated top to bottom. -/
def decideWinner (dealer_value player_value : Int) : String :=
  if dealer_value > 21 ∧ player_value > 21 then "Both players busted! No winner."
  else if dealer_value > 21 then "Dealer busted! Player wins!"
  else if player_value > 21 then "Player busted! Dealer wins!"
  else if dealer_value > player_value then "Dealer wins!"
  else if player_value > dealer_value then "Player wins!"
  else "It's a draw!"

/-- The hand value a zone contributes in one frame: `dealer_value` /
`player_value` start at 0 (lines 69-70) and are recomputed by
`calculate_blackjack_value` only when the game is not over and the zone's
hand is nonempty (lines 125-136); `none` models the evaluator raising. -/
def zoneValue (over : Bool) (hand : List String) : Option Int :=
  if over = false ∧ hand ≠ [] then calculate_blackjack_value hand else some 0

/-- One iteration of the main loop (lines 60-174) as a state transition:
classify and deduplicate this frame's detections into the two hands,
compute the two zone values under the `not game_over` guard, then apply
the key handler: `'S'` sets `game_over` and stores the winner message
computed from the two values, `'D'` clears the state, any other key leaves
it unchanged.  `none` models an uncaught exception in the evaluator. -/
def frameStep (dets : List (String × Int)) (height : Int) (key : Key)
    (st : GameState) : Option GameState :=
  match zoneValue st.game_over (dealerHand dets height),
        zoneValue st.game_over (playerHand dets height) with
  | some dv, some pv =>
    match key with
    | Key.endRound => some ⟨true, decideWinner dv pv⟩
    | Key.reset => some ⟨false, ""⟩
    | Key.other => some st
  | _, _ => none

-- Further helper lemmas --------------------------------------------------

/-- Fuel equal to the ace counter always suffices for the ace-adjustment
loop: it finishes in at most `aces` iterations. -/
theorem adjustAcesFuel_sufficient :
    ∀ (aces fuel : Nat) (value : Int), aces ≤ fuel →
      adjustAcesFuel fuel value aces = some (adjustAces value aces) := by
  intro aces
  induction aces with
  | zero =>
    intro fuel value _
    cases fuel with
    | zero => simp [adjustAcesFuel, adjustAces]
    | succ f => simp [adjustAcesFuel, adjustAces]
  | succ a ih =>
    intro fuel value hle
    cases fuel with
    | zero => omega
    | succ f =>
      by_cases hv : 21 < value
      · have : (21 < value ∧ 0 < a + 1) := ⟨hv, Nat.succ_pos a⟩
        simp only [adjustAcesFuel, if_pos this, adjustAces, if_pos hv,
          Nat.add_sub_cancel]
        exact ih f (value - 10) (Nat.le_of_succ_le_succ hle)
      · have : ¬(21 < value ∧ 0 < a + 1) := fun hc => hv hc.1
        simp only [adjustAcesFuel, if_neg this, adjustAces, if_neg hv]

/-- The loop result is the initial total minus 10 per executed iteration,
and the iteration count never exceeds the ace counter. -/
theorem adjustAces_iterations :
    ∀ (aces : Nat) (value : Int),
      adjustAces value aces = value - 10 * (aceIterations value aces : Int)
      ∧ aceIterations value aces ≤ aces := by
  intro aces
  induction aces with
  | zero => intro value; simp [adjustAces, aceIterations]
  | succ a ih =>
    intro value
    by_cases hv : 21 < value
    · obtain ⟨h1, h2⟩ := ih (value - 10)
      simp only [adjustAces, aceIterations, if_pos hv]
      constructor
      · rw [h1]
        push_cast
        ring
      · omega
    · simp [adjustAces, aceIterations, hv]

/-- The accumulation loop raises exactly when some card of the hand fails
to parse. -/
theorem handCount_isSome_iff (hand : List String) :
    ∀ (value : Int) (aces : Nat),
      (handCount hand value aces).isSome ↔ ∀ c ∈ hand, (rankPoints c).isSome := by
  induction hand with
  | nil => intro value aces; simp [handCount]
  | cons card rest ih =>
    intro value aces
    simp only [handCount]
    cases hrp : rankPoints card with
    | none => simp [hrp]
    | some pq => simp [hrp, ih]

-- Claim theorems ---------------------------------------------------------

/-- C1: `calculate_blackjack_value`, whenever it returns a value, returns
the total obtained by counting each card at its base points with every Ace
as 11, then downgrading Aces from 11 to 1 (subtracting 10) one at a time
while the total exceeds 21 and undowngraded Aces remain; and concretely, a
lone Ace evaluates to 11, two Aces to 12, and two Aces with a nine to 21. -/
theorem evaluate_ace_adjustment :
    (∀ (hand : List String) (v : Int),
        calculate_blackjack_value hand = some v →
        v = specDowngrade ((hand.map specBase).sum) (hand.countP isAce))
    ∧ calculate_blackjack_value ["AH"] = some 11
    ∧ calculate_blackjack_value ["AH", "AD"] = some 12
    ∧ calculate_blackjack_value ["AH", "AD", "9C"] = some 21 := by
  refine ⟨?_, by decide, by decide, by decide⟩
  intro hand v h
  unfold calculate_blackjack_value at h
  cases hhc : handCount hand 0 0 with
  | none => rw [hhc] at h; cases h
  | some va =>
    rw [hhc] at h
    injection h with h
    obtain ⟨hv, ha⟩ := handCount_eq hand 0 0 va.1 va.2 (by rw [hhc])
    rw [← h, ← adjustAces_eq_specDowngrade]
    rw [hv, ha] at *
    simp

/-- Witness for C1 at a concrete hand: the hypothesis of the universal
part is satisfiable and the conclusion holds there. -/
theorem evaluate_ace_adjustment_witness :
    calculate_blackjack_value ["KH", "QD"] = some 20
    ∧ (20 : Int) = specDowngrade (((["KH", "QD"]).map specBase).sum)
        ((["KH", "QD"]).countP isAce) := by
  refine ⟨by decide, ?_⟩
  exact evaluate_ace_adjustment.1 ["KH", "QD"] 20 (by decide)

/-- C6: the ace-adjustment loop terminates — fuel equal to the (finite)
ace counter always suffices, each executed iteration subtracts exactly 10
from the total, the body runs at most `aces` times — and the body runs
zero times whenever the initial total is at most 21, even with aces
present. -/
theorem ace_loop_terminates (value : Int) (aces : Nat) :
    adjustAcesFuel aces value aces = some (adjustAces value aces)
    ∧ adjustAces value aces = value - 10 * (aceIterations value aces : Int)
    ∧ aceIterations value aces ≤ aces
    ∧ (value ≤ 21 → aceIterations value aces = 0) := by
  obtain ⟨h1, h2⟩ := adjustAces_iterations aces value
  refine ⟨adjustAcesFuel_sufficient aces aces value (Nat.le_refl aces), h1, h2, ?_⟩
  intro hle
  cases aces with
  | zero => rfl
  | succ a =>
    simp only [aceIterations, if_neg (by omega : ¬(21 < value))]

/-- Witness for C6 at a concrete total with aces present: the loop body
runs zero times for a total of 20 with three aces available. -/
theorem ace_loop_terminates_witness :
    adjustAcesFuel 3 20 3 = some (adjustAces 20 3) ∧ aceIterations 20 3 = 0 :=
  ⟨(ace_loop_terminates 20 3).1, (ace_loop_terminates 20 3).2.2.2 (by decide)⟩

/-- C9: on a hand of valid non-Ace cards, `calculate_blackjack_value`
returns the plain sum of the cards' base rank values (face value for
numeric ranks, 10 for J, Q, K); the empty hand evaluates to 0, which is
not a bust. -/
theorem evaluate_no_aces :
    (∀ hand : List String,
        (∀ c ∈ hand, c ∈ classNames ∧ isAce c = false) →
        calculate_blackjack_value hand = some ((hand.map specBase).sum))
    ∧ calculate_blackjack_value [] = some 0
    ∧ ¬((0 : Int) > 21) := by
  refine ⟨?_, by decide, by decide⟩
  intro hand hvalid
  have hsome : (handCount hand 0 0).isSome := by
    rw [handCount_isSome_iff]
    intro c hc
    rw [classNames_rankPoints c (hvalid c hc).1]
    rfl
  obtain ⟨va, hva⟩ := Option.isSome_iff_exists.mp hsome
  obtain ⟨hv, ha⟩ := handCount_eq hand 0 0 va.1 va.2 hva
  have hcount : hand.countP isAce = 0 := by
    rw [List.countP_eq_zero]
    intro c hc
    simp [(hvalid c hc).2]
  unfold calculate_blackjack_value
  rw [hva]
  simp [hv, ha, hcount, adjustAces]

/-- Witness for C9 at a concrete ace-free valid hand. -/
theorem evaluate_no_aces_witness :
    (∀ c ∈ ["KH", "5C"], c ∈ classNames ∧ isAce c = false)
    ∧ calculate_blackjack_value ["KH", "5C"]
        = some (((["KH", "5C"]).map specBase).sum) :=
  ⟨by decide, evaluate_no_aces.1 ["KH", "5C"] (by decide)⟩

/-- C3 counterexample: `'2X'` is not one of the 52 defined card symbols,
yet evaluating a hand containing it does not fail — the rank prefix `'2'`
parses as an integer and the card silently scores 2.  This refutes the
claim that every identifier outside the 52 symbols makes evaluation fail. -/
theorem invalid_card_not_always_rejected :
    "2X" ∉ classNames ∧ calculate_blackjack_value ["2X"] = some 2 := by
  exact ⟨by decide, by decide⟩

/-- C3 (amended): evaluation fails exactly when some card's rank prefix
fails to parse (it is neither K, Q, J nor A nor an integer string); hands
of valid identifiers never fail, and some invalid identifiers (such as
`'ZZ'`) do fail — but an invalid identifier whose rank prefix parses is
silently accepted, and the failure is `int()`'s `ValueError`, not a
dedicated `InvalidCardError`. -/
theorem invalid_card_handling :
    (∀ hand : List String,
        (calculate_blackjack_value hand).isSome ↔ ∀ c ∈ hand, (rankPoints c).isSome)
    ∧ (∀ hand : List String, (∀ c ∈ hand, c ∈ classNames) →
        (calculate_blackjack_value hand).isSome)
    ∧ calculate_blackjack_value ["ZZ"] = none
    ∧ "ZZ" ∉ classNames := by
  have hiff : ∀ hand : List String,
      (calculate_blackjack_value hand).isSome ↔ ∀ c ∈ hand, (rankPoints c).isSome := by
    intro hand
    unfold calculate_blackjack_value
    rw [← handCount_isSome_iff hand 0 0]
    cases handCount hand 0 0 <;> simp
  refine ⟨hiff, ?_, by decide, by decide⟩
  intro hand hvalid
  rw [hiff]
  intro c hc
  rw [classNames_rankPoints c (hvalid c hc)]
  rfl

/-- Witness for C3 (amended) at a concrete valid hand. -/
theorem invalid_card_handling_witness :
    (∀ c ∈ ["AC", "10S"], c ∈ classNames)
    ∧ (calculate_blackjack_value ["AC", "10S"]).isSome :=
  ⟨by decide, invalid_card_handling.2.1 ["AC", "10S"] (by decide)⟩

/-- C2: the End handler chooses the winner message by the fixed
precedence of the `if`/`elif` chain — both busted, dealer busted, player
busted, higher dealer value, higher player value, draw — first match
winning; concretely End(22, 18) reports the dealer bust, End(20, 20) the
draw, and End(17, 19) the player win. -/
theorem end_winner_precedence :
    (∀ d p : Int,
      (d > 21 ∧ p > 21 → decideWinner d p = "Both players busted! No winner.")
      ∧ (d > 21 ∧ p ≤ 21 → decideWinner d p = "Dealer busted! Player wins!")
      ∧ (d ≤ 21 ∧ p > 21 → decideWinner d p = "Player busted! Dealer wins!")
      ∧ (d ≤ 21 ∧ p ≤ 21 ∧ p < d → decideWinner d p = "Dealer wins!")
      ∧ (d ≤ 21 ∧ p ≤ 21 ∧ d < p → decideWinner d p = "Player wins!")
      ∧ (d ≤ 21 ∧ p ≤ 21 ∧ d = p → decideWinner d p = "It's a draw!"))
    ∧ decideWinner 22 18 = "Dealer busted! Player wins!"
    ∧ decideWinner 20 20 = "It's a draw!"
    ∧ decideWinner 17 19 = "Player wins!" := by
  refine ⟨?_, by decide, by decide, by decide⟩
  intro d p
  unfold decideWinner
  refine ⟨?_, ?_, ?_, ?_, ?_, ?_⟩
  · intro h
    rw [if_pos h]
  · intro h
    rw [if_neg (by omega), if_pos h.1]
  · intro h
    rw [if_neg (by omega), if_neg (by omega), if_pos h.2]
  · intro h
    rw [if_neg (by omega), if_neg (by omega), if_neg (by omega), if_pos h.2.2]
  · intro h
    rw [if_neg (by omega), if_neg (by omega), if_neg (by omega),
      if_neg (by omega), if_pos h.2.2]
  · intro h
    rw [if_neg (by omega), if_neg (by omega), if_neg (by omega),
      if_neg (by omega), if_neg (by omega)]

/-- Witness for C2 at a concrete pair of busts: both sides over 21 yield
the no-winner message. -/
theorem end_winner_precedence_witness :
    decideWinner 22 30 = "Both players busted! No winner." :=
  (end_winner_precedence.1 22 30).1 (by decide)

/-- C4: for a top edge inside the frame, the classifier assigns exactly
one zone — Dealer exactly when `topEdgeY` is below half the frame height
(floor division, as in the source), Player exactly when it is at or past
it, never both and never neither. -/
theorem classify_total (y h : Int) (_h0 : 0 ≤ y) (_h1 : y < h) :
    (classify y h = some Zone.dealer ↔ y < Int.fdiv h 2)
    ∧ (classify y h = some Zone.player ↔ Int.fdiv h 2 ≤ y)
    ∧ classify y h ≠ none
    ∧ ¬(classify y h = some Zone.dealer ∧ classify y h = some Zone.player) := by
  unfold classify
  by_cases hc : y < Int.fdiv h 2
  · simp [hc]
  · simp [hc, Int.not_lt.mp hc]

/-- Witness for C4 at a concrete in-frame coordinate. -/
theorem classify_total_witness :
    classify 3 10 = some Zone.dealer ↔ (3 : Int) < Int.fdiv 10 2 :=
  (classify_total 3 10 (by decide) (by decide)).1

/-- C7: within a zone, an identifier detected any positive number of
times in a frame occurs exactly once in that zone's deduplicated hand. -/
theorem aggregate_dedup (dets : List (String × Int)) (height : Int)
    (card : String) :
    (1 ≤ (dealerRaw dets height).count card →
      (dealerHand dets height).count card = 1)
    ∧ (1 ≤ (playerRaw dets height).count card →
      (playerHand dets height).count card = 1) := by
  constructor
  · intro h
    unfold dealerHand
    rw [List.count_dedup]
    rw [if_pos (List.count_pos_iff.mp (by omega))]
  · intro h
    unfold playerHand
    rw [List.count_dedup]
    rw [if_pos (List.count_pos_iff.mp (by omega))]

/-- Witness for C7 at a frame with the five of hearts detected twice in
the dealer zone. -/
theorem aggregate_dedup_witness :
    1 ≤ (dealerRaw [("5H", 0), ("5H", 1)] 10).count "5H"
    ∧ (dealerHand [("5H", 0), ("5H", 1)] 10).count "5H" = 1 :=
  ⟨by decide, (aggregate_dedup [("5H", 0), ("5H", 1)] 10 "5H").1 (by decide)⟩

/-- C5: when End fires in an in-progress frame, the values it consumes
are that same frame's live values with 0 as the default for a zone with
no detected cards — and the empty zone's 0 is never reported as a bust
(no bust message naming that zone can result). -/
theorem end_uses_default_values :
    (∀ (dets : List (String × Int)) (height : Int) (st : GameState) (pv : Int),
      st.game_over = false →
      dealerRaw dets height = [] →
      zoneValue false (playerHand dets height) = some pv →
      frameStep dets height Key.endRound st = some ⟨true, decideWinner 0 pv⟩
        ∧ decideWinner 0 pv ≠ "Dealer busted! Player wins!"
        ∧ decideWinner 0 pv ≠ "Both players busted! No winner.")
    ∧ (∀ (dets : List (String × Int)) (height : Int) (st : GameState) (dv : Int),
      st.game_over = false →
      playerRaw dets height = [] →
      zoneValue false (dealerHand dets height) = some dv →
      frameStep dets height Key.endRound st = some ⟨true, decideWinner dv 0⟩
        ∧ decideWinner dv 0 ≠ "Player busted! Dealer wins!"
        ∧ decideWinner dv 0 ≠ "Both players busted! No winner.") := by
  constructor
  · intro dets height st pv hst hraw hpv
    have hdz : zoneValue st.game_over (dealerHand dets height) = some 0 := by
      unfold dealerHand
      rw [hraw]
      simp [zoneValue]
    refine ⟨?_, ?_, ?_⟩
    · unfold frameStep
      rw [hdz, hst, hpv]
    · unfold decideWinner
      repeat' split
      all_goals first | omega | decide
    · unfold decideWinner
      repeat' split
      all_goals first | omega | decide
  · intro dets height st dv hst hraw hdv
    have hpz : zoneValue st.game_over (playerHand dets height) = some 0 := by
      unfold playerHand
      rw [hraw]
      simp [zoneValue]
    refine ⟨?_, ?_, ?_⟩
    · unfold frameStep
      rw [hpz, hst, hdv]
    · unfold decideWinner
      repeat' split
      all_goals first | omega | decide
    · unfold decideWinner
      repeat' split
      all_goals first | omega | decide

/-- Witness for C5: a frame whose only detection lies in the player zone;
the dealer side contributes 0 and the player wins with 5 against 0. -/
theorem end_uses_default_values_witness :
    frameStep [("5H", 6)] 10 Key.endRound ⟨false, ""⟩
      = some ⟨true, decideWinner 0 5⟩
    ∧ decideWinner 0 5 ≠ "Dealer busted! Player wins!" :=
  have h := (end_uses_default_values.1 [("5H", 6)] 10 ⟨false, ""⟩ 5
    rfl (by decide) (by decide))
  ⟨h.1, h.2.1⟩

/-- C10: if End fires while the state is already Ended, the evaluation
guard keeps both hand values at their frame-initial default 0, so the
winner is recomputed as a draw regardless of the detections. -/
theorem end_while_ended_draws (dets : List (String × Int)) (height : Int)
    (st : GameState) (h : st.game_over = true) :
    frameStep dets height Key.endRound st = some ⟨true, "It's a draw!"⟩ := by
  unfold frameStep
  rw [h]
  simp [zoneValue]
  decide

/-- Witness for C10: cards are on the table on both sides, yet ending an
already-ended game overwrites the stored message with the draw. -/
theorem end_while_ended_draws_witness :
    frameStep [("KH", 1), ("QD", 6)] 10 Key.endRound ⟨true, "Dealer wins!"⟩
      = some ⟨true, "It's a draw!"⟩ :=
  end_while_ended_draws [("KH", 1), ("QD", 6)] 10 ⟨true, "Dealer wins!"⟩ rfl

/-- C8: from any Ended state, whatever winner message it stores and
whatever is detected in the frame, Reset yields the in-progress state
with the empty winner message — the two fields of the state are fully
determined, so nothing else changes. -/
theorem reset_clears_state (dets : List (String × Int)) (height : Int)
    (st : GameState) (h : st.game_over = true) :
    frameStep dets height Key.reset st = some ⟨false, ""⟩ := by
  unfold frameStep
  rw [h]
  simp [zoneValue]

/-- Witness for C8 at a concrete ended state with a stored winner. -/
theorem reset_clears_state_witness :
    frameStep [("KH", 1)] 10 Key.reset ⟨true, "Player wins!"⟩
      = some ⟨false, ""⟩ :=
  reset_clears_state [("KH", 1)] 10 ⟨true, "Player wins!"⟩ rfl
